import Mathlib

/-!
Shallow embedding of `src/Statistics/Tukey.py` (class `Tukey`).

Numeric values are modelled by `ℚ`; Python `None` by `Option`; a raised
exception (the only possible one is an `IndexError` from list indexing in
`__median`) by `Except.error`.  Python's in-place `list.sort()` is modelled
by `List.insertionSort (· ≤ ·)` (a stable ascending comparison sort); the
post-call state of the caller's list is modelled separately by
`runFinalList`.
-/

namespace Tukey

/-- `Tukey.TukeyResult`: outliers, non-outliers and the two fences.
The fences are `Option ℚ` because `run` leaves them `None` for a
single-element input. -/
structure TukeyResult where
  outliers : List ℚ
  non_outliers : List ℚ
  lower_fence : Option ℚ
  upper_fence : Option ℚ
  deriving DecidableEq, Repr

/-- Model of Python `list.sort()`: sort ascending. -/
def sortList (l : List ℚ) : List ℚ :=
  l.insertionSort (· ≤ ·)

/-- `Tukey.__medianIdx`: `int(len(p_list)/2)`, i.e. `⌊length/2⌋`. -/
def medianIdx (p_list : List ℚ) : ℕ :=
  p_list.length / 2

/-- `Tukey.__median`: `p_list[Tukey.__medianIdx(p_list)]`.  Python raises
`IndexError` when the index is out of bounds, so the model returns an
`Option`. -/
def median (p_list : List ℚ) : Option ℚ :=
  p_list[medianIdx p_list]?

/-- The classification condition of the loop in `run`:
`elem < lower_fence or elem > upper_fence`. -/
def isOutlier (lower_fence upper_fence e : ℚ) : Bool :=
  decide (e < lower_fence) || decide (e > upper_fence)

/-- The classification loop of `run`: iterate over the sorted list,
appending each element to `outliers` or `non_outliers`. -/
def filterLoop (lower_fence upper_fence : ℚ) (l : List ℚ) : List ℚ × List ℚ :=
  l.foldl
    (fun acc e =>
      if isOutlier lower_fence upper_fence e then (acc.1 ++ [e], acc.2)
      else (acc.1, acc.2 ++ [e]))
    ([], [])

/-- `Tukey.run`.  The input is `Option (List ℚ)` (`None` or a list); the
result is `Except.error` if an internal list access would raise, otherwise
`Except.ok r` where `r` models the returned value (`none` = Python `None`). -/
def run (p_list : Option (List ℚ)) : Except String (Option TukeyResult) :=
  match p_list with
  | none => Except.ok none
  | some l =>
    if 0 < l.length then
      if l.length = 1 then
        Except.ok (some ⟨[], l, none, none⟩)
      else
        let s := sortList l
        let split_idx := medianIdx s
        let lower_list := s.take split_idx
        let upper_list :=
          if s.length % 2 = 0 then s.drop split_idx
          else s.drop (split_idx + 1)
        match median lower_list, median upper_list with
        | some q1v, some q3v =>
          let iqrv := q3v - q1v
          let lfv := q1v - iqrv * (3 / 2)
          let ufv := q3v + iqrv * (3 / 2)
          let p := filterLoop lfv ufv s
          Except.ok (some ⟨p.1, p.2, some lfv, some ufv⟩)
        | _, _ => Except.error "IndexError"
    else Except.ok none

/-- State of the caller's list after `run` returns: `run` sorts the list in
place exactly when it has more than one element. -/
def runFinalList (p_list : Option (List ℚ)) : Option (List ℚ) :=
  match p_list with
  | none => none
  | some l => if 1 < l.length then some (sortList l) else some l

/-! Spec-side quantities, written out following the spec's description of
the algorithm (§4.1): `mid = ⌊n/2⌋` of the sorted list, lower/upper halves
by slicing, quartiles as lower medians of the halves, fences at 1.5·IQR. -/

/-- Spec: `lowerHalf` = elements of the sorted list at indices `[0, mid)`. -/
def lowerHalf (l : List ℚ) : List ℚ :=
  (sortList l).take (medianIdx (sortList l))

/-- Spec: `upperHalf` = sorted indices `[mid, n)` for even `n`,
`[mid+1, n)` for odd `n`. -/
def upperHalf (l : List ℚ) : List ℚ :=
  if (sortList l).length % 2 = 0 then (sortList l).drop (medianIdx (sortList l))
  else (sortList l).drop (medianIdx (sortList l) + 1)

/-- Spec: `Q1` = element of `lowerHalf` at index `⌊len/2⌋` (lower median). -/
def q1 (l : List ℚ) : ℚ :=
  (lowerHalf l).getD (medianIdx (lowerHalf l)) 0

/-- Spec: `Q3` = element of `upperHalf` at index `⌊len/2⌋` (lower median). -/
def q3 (l : List ℚ) : ℚ :=
  (upperHalf l).getD (medianIdx (upperHalf l)) 0

/-- Spec: `IQR = Q3 - Q1`. -/
def iqr (l : List ℚ) : ℚ :=
  q3 l - q1 l

/-- Spec: `lower_fence = Q1 - 1.5 * IQR`. -/
def lowerFence (l : List ℚ) : ℚ :=
  q1 l - iqr l * (3 / 2)

/-- Spec: `upper_fence = Q3 + 1.5 * IQR`. -/
def upperFence (l : List ℚ) : ℚ :=
  q3 l + iqr l * (3 / 2)

/-- The outlier list `run` produces for an input of length ≥ 2. -/
def outliersOf (l : List ℚ) : List ℚ :=
  (sortList l).filter (fun e => isOutlier (lowerFence l) (upperFence l) e)

/-- The non-outlier list `run` produces for an input of length ≥ 2. -/
def nonOutliersOf (l : List ℚ) : List ℚ :=
  (sortList l).filter (fun e => !isOutlier (lowerFence l) (upperFence l) e)

/-! ### Basic lemmas about the embedded operations -/

theorem length_sortList (l : List ℚ) : (sortList l).length = l.length :=
  (List.perm_insertionSort _ l).length_eq

theorem perm_sortList (l : List ℚ) : (sortList l).Perm l :=
  List.perm_insertionSort _ l

theorem sorted_sortList (l : List ℚ) : (sortList l).Sorted (· ≤ ·) :=
  List.sorted_insertionSort _ l

theorem mem_sortList {x : ℚ} {l : List ℚ} : x ∈ sortList l ↔ x ∈ l :=
  (perm_sortList l).mem_iff

theorem medianIdx_lt_length {l : List ℚ} (h : l ≠ []) : medianIdx l < l.length := by
  have h0 : 0 < l.length := List.length_pos.mpr h
  exact Nat.div_lt_self h0 (by omega)

theorem median_eq_some {l : List ℚ} (h : l ≠ []) :
    median l = some (l.getD (medianIdx l) 0) := by
  have hlt := medianIdx_lt_length h
  simp [median, List.getD_eq_getElem?_getD, List.getElem?_eq_getElem hlt]

theorem length_lowerHalf (l : List ℚ) : (lowerHalf l).length = l.length / 2 := by
  have hs := length_sortList l
  simp [lowerHalf, medianIdx, hs]
  omega

theorem lowerHalf_ne_nil {l : List ℚ} (h : 2 ≤ l.length) : lowerHalf l ≠ [] := by
  have hl := length_lowerHalf l
  intro hnil
  rw [hnil] at hl
  simp at hl
  omega

theorem length_upperHalf (l : List ℚ) :
    (upperHalf l).length =
      if l.length % 2 = 0 then l.length - medianIdx (sortList l)
      else l.length - (medianIdx (sortList l) + 1) := by
  have hs := length_sortList l
  unfold upperHalf
  rw [hs]
  split <;> simp [List.length_drop, hs]

theorem upperHalf_ne_nil {l : List ℚ} (h : 2 ≤ l.length) : upperHalf l ≠ [] := by
  have hl := length_upperHalf l
  have hs := length_sortList l
  intro hnil
  rw [hnil] at hl
  simp only [List.length_nil, medianIdx, hs] at hl
  split at hl <;> omega

theorem mem_lowerHalf {x : ℚ} {l : List ℚ} (h : x ∈ lowerHalf l) : x ∈ sortList l :=
  (List.take_sublist _ _).mem h

theorem mem_upperHalf {x : ℚ} {l : List ℚ} (h : x ∈ upperHalf l) : x ∈ sortList l := by
  unfold upperHalf at h
  split at h
  · exact (List.drop_sublist _ _).mem h
  · exact (List.drop_sublist _ _).mem h

theorem getD_mem {l : List ℚ} {i : ℕ} (h : i < l.length) : l.getD i 0 ∈ l := by
  rw [List.getD_eq_getElem?_getD, List.getElem?_eq_getElem h]
  exact List.getElem_mem h

theorem q1_mem_lowerHalf (l : List ℚ) (h : 2 ≤ l.length) : q1 l ∈ lowerHalf l := by
  have hne := lowerHalf_ne_nil h
  exact getD_mem (medianIdx_lt_length hne)

theorem q3_mem_upperHalf (l : List ℚ) (h : 2 ≤ l.length) : q3 l ∈ upperHalf l := by
  have hne := upperHalf_ne_nil h
  exact getD_mem (medianIdx_lt_length hne)

theorem q1_le_q3 (l : List ℚ) (h : 2 ≤ l.length) : q1 l ≤ q3 l := by
  have hs : List.Pairwise (· ≤ ·) (sortList l) := sorted_sortList l
  have hsplit :
      (sortList l).take (medianIdx (sortList l)) ++ (sortList l).drop (medianIdx (sortList l)) =
        sortList l := List.take_append_drop _ _
  have hpw : List.Pairwise (· ≤ ·)
      ((sortList l).take (medianIdx (sortList l)) ++
        (sortList l).drop (medianIdx (sortList l))) := by
    rw [hsplit]; exact hs
  have hrel := (List.pairwise_append.mp hpw).2.2
  have hq1 : q1 l ∈ (sortList l).take (medianIdx (sortList l)) := q1_mem_lowerHalf l h
  have hq3 : q3 l ∈ (sortList l).drop (medianIdx (sortList l)) := by
    have h3 := q3_mem_upperHalf l h
    unfold upperHalf at h3
    split at h3
    · exact h3
    · have hdd : (sortList l).drop (medianIdx (sortList l) + 1) =
          ((sortList l).drop (medianIdx (sortList l))).drop 1 := by
        rw [List.drop_drop]
      rw [hdd] at h3
      exact List.drop_subset _ _ h3
  exact hrel _ hq1 _ hq3

theorem lowerFence_le_q1 (l : List ℚ) (h : 2 ≤ l.length) : lowerFence l ≤ q1 l := by
  have := q1_le_q3 l h
  unfold lowerFence iqr
  linarith

theorem q3_le_upperFence (l : List ℚ) (h : 2 ≤ l.length) : q3 l ≤ upperFence l := by
  have := q1_le_q3 l h
  unfold upperFence iqr
  linarith

theorem filterLoop_foldl (lf uf : ℚ) :
    ∀ (l acc1 acc2 : List ℚ),
      l.foldl
          (fun acc e =>
            if isOutlier lf uf e then (acc.1 ++ [e], acc.2) else (acc.1, acc.2 ++ [e]))
          (acc1, acc2) =
        (acc1 ++ l.filter (fun e => isOutlier lf uf e),
          acc2 ++ l.filter (fun e => !isOutlier lf uf e)) := by
  intro l
  induction l with
  | nil => intro acc1 acc2; simp
  | cons e t ih =>
    intro acc1 acc2
    by_cases hc : isOutlier lf uf e
    · simp [List.foldl_cons, hc, ih]
    · simp [List.foldl_cons, hc, ih]

theorem filterLoop_eq (lf uf : ℚ) (l : List ℚ) :
    filterLoop lf uf l =
      (l.filter (fun e => isOutlier lf uf e), l.filter (fun e => !isOutlier lf uf e)) := by
  unfold filterLoop
  rw [filterLoop_foldl]
  simp

/-! ### Unfolding `run` in each of its three input regimes -/

theorem run_none : run none = Except.ok none := rfl

theorem run_nil : run (some []) = Except.ok none := rfl

theorem run_singleton (x : ℚ) :
    run (some [x]) = Except.ok (some ⟨[], [x], none, none⟩) := rfl

theorem lowerHalf_def (l : List ℚ) :
    (sortList l).take (medianIdx (sortList l)) = lowerHalf l := rfl

theorem upperHalf_def (l : List ℚ) :
    (if (sortList l).length % 2 = 0 then (sortList l).drop (medianIdx (sortList l))
      else (sortList l).drop (medianIdx (sortList l) + 1)) = upperHalf l := rfl

theorem run_eq (l : List ℚ) (h : 2 ≤ l.length) :
    run (some l) =
      Except.ok (some ⟨outliersOf l, nonOutliersOf l,
        some (lowerFence l), some (upperFence l)⟩) := by
  have h0 : 0 < l.length := by omega
  have h1 : ¬ l.length = 1 := by omega
  have hlow := lowerHalf_ne_nil h
  have hup := upperHalf_ne_nil h
  simp only [run, if_pos h0, if_neg h1, lowerHalf_def, upperHalf_def,
    median_eq_some hlow, median_eq_some hup, filterLoop_eq,
    outliersOf, nonOutliersOf, lowerFence, upperFence, iqr, q1, q3]

/-! ### Properties of the produced partition -/

theorem outliersOf_append_perm (l : List ℚ) :
    (outliersOf l ++ nonOutliersOf l).Perm l :=
  (List.filter_append_perm _ (sortList l)).trans (perm_sortList l)

theorem mem_nonOutliersOf {x : ℚ} {l : List ℚ} :
    x ∈ nonOutliersOf l ↔
      x ∈ sortList l ∧ lowerFence l ≤ x ∧ x ≤ upperFence l := by
  simp only [nonOutliersOf, List.mem_filter, Bool.not_eq_true', isOutlier,
    Bool.or_eq_false_iff, decide_eq_false_iff_not, not_lt, gt_iff_lt, and_assoc]

theorem mem_outliersOf {x : ℚ} {l : List ℚ} :
    x ∈ outliersOf l ↔
      x ∈ sortList l ∧ (x < lowerFence l ∨ upperFence l < x) := by
  simp only [outliersOf, List.mem_filter, isOutlier, Bool.or_eq_true, decide_eq_true_eq,
    gt_iff_lt]

theorem sorted_outliersOf (l : List ℚ) : (outliersOf l).Sorted (· ≤ ·) :=
  List.Pairwise.filter _ (sorted_sortList l)

theorem sorted_nonOutliersOf (l : List ℚ) : (nonOutliersOf l).Sorted (· ≤ ·) :=
  List.Pairwise.filter _ (sorted_sortList l)

theorem q1_mem_nonOutliersOf (l : List ℚ) (h : 2 ≤ l.length) :
    q1 l ∈ nonOutliersOf l := by
  rw [mem_nonOutliersOf]
  refine ⟨mem_lowerHalf (q1_mem_lowerHalf l h), lowerFence_le_q1 l h, ?_⟩
  calc q1 l ≤ q3 l := q1_le_q3 l h
    _ ≤ upperFence l := q3_le_upperFence l h

theorem q3_mem_nonOutliersOf (l : List ℚ) (h : 2 ≤ l.length) :
    q3 l ∈ nonOutliersOf l := by
  rw [mem_nonOutliersOf]
  refine ⟨mem_upperHalf (q3_mem_upperHalf l h), ?_, q3_le_upperFence l h⟩
  calc lowerFence l ≤ q1 l := lowerFence_le_q1 l h
    _ ≤ q3 l := q1_le_q3 l h

theorem nonOutliersOf_ne_nil (l : List ℚ) (h : 2 ≤ l.length) :
    nonOutliersOf l ≠ [] :=
  List.ne_nil_of_mem (q1_mem_nonOutliersOf l h)

/-! ### Evaluating `run` on concrete datasets -/

theorem run_eval (l : List ℚ) (h : 2 ≤ l.length) (lf uf : ℚ)
    (hlf : lowerFence l = lf) (huf : upperFence l = uf)
    (os ns : List ℚ)
    (hos : (sortList l).filter (fun e => isOutlier lf uf e) = os)
    (hns : (sortList l).filter (fun e => !isOutlier lf uf e) = ns) :
    run (some l) = Except.ok (some ⟨os, ns, some lf, some uf⟩) := by
  rw [run_eq l h]
  simp only [outliersOf, nonOutliersOf, hlf, huf, hos, hns]

theorem run_known_dataset :
    run (some [2,3,3,4,5,6,7,8,9,10,50]) =
      Except.ok (some ⟨[50], [2,3,3,4,5,6,7,8,9,10], some (-6), some 18⟩) := by
  have hq1 : q1 [2,3,3,4,5,6,7,8,9,10,50] = 3 := by decide
  have hq3 : q3 [2,3,3,4,5,6,7,8,9,10,50] = 9 := by decide
  have hlf : lowerFence [2,3,3,4,5,6,7,8,9,10,50] = -6 := by
    unfold lowerFence iqr
    rw [hq1, hq3]
    norm_num
  have huf : upperFence [2,3,3,4,5,6,7,8,9,10,50] = 18 := by
    unfold upperFence iqr
    rw [hq1, hq3]
    norm_num
  exact run_eval _ (by decide) _ _ hlf huf _ _ (by decide) (by decide)

theorem run_c9_first :
    run (some [0,0,0,0,0,6,100]) =
      Except.ok (some ⟨[100], [0,0,0,0,0,6], some (-9), some 15⟩) := by
  have hq1 : q1 [0,0,0,0,0,6,100] = 0 := by decide
  have hq3 : q3 [0,0,0,0,0,6,100] = 6 := by decide
  have hlf : lowerFence [0,0,0,0,0,6,100] = -9 := by
    unfold lowerFence iqr
    rw [hq1, hq3]
    norm_num
  have huf : upperFence [0,0,0,0,0,6,100] = 15 := by
    unfold upperFence iqr
    rw [hq1, hq3]
    norm_num
  exact run_eval _ (by decide) _ _ hlf huf _ _ (by decide) (by decide)

theorem run_c9_second :
    run (some [(0:ℚ),0,0,0,0,6]) =
      Except.ok (some ⟨[6], [0,0,0,0,0], some 0, some 0⟩) := by
  have hq1 : q1 [(0:ℚ),0,0,0,0,6] = 0 := by decide
  have hq3 : q3 [(0:ℚ),0,0,0,0,6] = 0 := by decide
  have hlf : lowerFence [(0:ℚ),0,0,0,0,6] = 0 := by
    unfold lowerFence iqr
    rw [hq1, hq3]
    norm_num
  have huf : upperFence [(0:ℚ),0,0,0,0,6] = 0 := by
    unfold upperFence iqr
    rw [hq1, hq3]
    norm_num
  exact run_eval _ (by decide) _ _ hlf huf _ _ (by decide) (by decide)

/-- For every non-empty input, `run` returns a present result whose two
output lists partition the input, counted with multiplicity. -/
theorem run_partition (l : List ℚ) (h : l ≠ []) :
    ∃ r : TukeyResult, run (some l) = Except.ok (some r) ∧
      r.outliers.length + r.non_outliers.length = l.length ∧
      ∀ x : ℚ, r.outliers.count x + r.non_outliers.count x = l.count x := by
  rcases l with _ | ⟨a, rest⟩
  · exact absurd rfl h
  rcases rest with _ | ⟨b, t⟩
  · exact ⟨⟨[], [a], none, none⟩, run_singleton a, by simp, by simp⟩
  · have h2 : 2 ≤ (a :: b :: t).length := by
      simp [List.length_cons]
    refine ⟨_, run_eq _ h2, ?_, ?_⟩
    · have hp := (outliersOf_append_perm (a :: b :: t)).length_eq
      simpa [List.length_append] using hp
    · intro x
      have hp := (outliersOf_append_perm (a :: b :: t)).count_eq x
      simpa [List.count_append] using hp

/-! ### The claims -/

/-- C1: for every input of at least two values, `run` computes the fences by
the exact median-of-halves algorithm — after sorting, with the halves cut at
`⌊n/2⌋` (upper half starting at `⌊n/2⌋` for even `n` and `⌊n/2⌋+1` for odd
`n`), `Q1`/`Q3` the lower medians of the halves, the returned fences are
`Q1 - 1.5·IQR` and `Q3 + 1.5·IQR`, and the outputs partition the sorted list
by those fences; in particular `run [2,3,3,4,5,6,7,8,9,10,50]` returns
lower fence `-6`, upper fence `18`, outliers `[50]` and non-outliers
`[2,3,3,4,5,6,7,8,9,10]`. -/
theorem tukey_c1 :
    (∀ l : List ℚ, 2 ≤ l.length →
      run (some l) =
        Except.ok (some ⟨
          (sortList l).filter
            (fun e => isOutlier (q1 l - iqr l * (3 / 2)) (q3 l + iqr l * (3 / 2)) e),
          (sortList l).filter
            (fun e => !isOutlier (q1 l - iqr l * (3 / 2)) (q3 l + iqr l * (3 / 2)) e),
          some (q1 l - iqr l * (3 / 2)), some (q3 l + iqr l * (3 / 2))⟩)) ∧
    run (some [2,3,3,4,5,6,7,8,9,10,50]) =
      Except.ok (some ⟨[50], [2,3,3,4,5,6,7,8,9,10], some (-6), some 18⟩) :=
  ⟨fun l h => run_eq l h, run_known_dataset⟩

/-- C1 witness: the universally quantified part of `tukey_c1` applied to the
concrete two-element dataset `[1, 2]`. -/
theorem tukey_c1_witness :
    run (some [(1:ℚ), 2]) =
      Except.ok (some ⟨
        (sortList [(1:ℚ), 2]).filter
          (fun e => isOutlier (q1 [(1:ℚ), 2] - iqr [(1:ℚ), 2] * (3 / 2))
            (q3 [(1:ℚ), 2] + iqr [(1:ℚ), 2] * (3 / 2)) e),
        (sortList [(1:ℚ), 2]).filter
          (fun e => !isOutlier (q1 [(1:ℚ), 2] - iqr [(1:ℚ), 2] * (3 / 2))
            (q3 [(1:ℚ), 2] + iqr [(1:ℚ), 2] * (3 / 2)) e),
        some (q1 [(1:ℚ), 2] - iqr [(1:ℚ), 2] * (3 / 2)),
        some (q3 [(1:ℚ), 2] + iqr [(1:ℚ), 2] * (3 / 2))⟩) :=
  tukey_c1.1 [1, 2] (by decide)

/-- C2: for every non-null, non-empty input, the returned outliers and
non-outliers have lengths summing to the input length, and every value's
multiplicity in the input is split exactly between the two outputs. -/
theorem tukey_c2 (l : List ℚ) (h : l ≠ []) :
    ∃ r : TukeyResult, run (some l) = Except.ok (some r) ∧
      r.outliers.length + r.non_outliers.length = l.length ∧
      ∀ x : ℚ, r.outliers.count x + r.non_outliers.count x = l.count x :=
  run_partition l h

/-- C2 witness: `tukey_c2` at the concrete dataset `[1, 2]`. -/
theorem tukey_c2_witness :
    ∃ r : TukeyResult, run (some [(1:ℚ), 2]) = Except.ok (some r) ∧
      r.outliers.length + r.non_outliers.length = ([(1:ℚ), 2]).length ∧
      ∀ x : ℚ, r.outliers.count x + r.non_outliers.count x = ([(1:ℚ), 2]).count x :=
  tukey_c2 [1, 2] (by decide)

/-- C3: for every input of at least two values, both fences are present,
every non-outlier lies within them inclusively, every outlier strictly
violates one side; and when all values are identical, `IQR = 0`, both fences
equal the common value, and everything is a non-outlier. -/
theorem tukey_c3 (l : List ℚ) (h : 2 ≤ l.length) :
    ∃ r : TukeyResult, ∃ lf uf : ℚ,
      run (some l) = Except.ok (some r) ∧
      r.lower_fence = some lf ∧ r.upper_fence = some uf ∧
      (∀ x ∈ r.non_outliers, lf ≤ x ∧ x ≤ uf) ∧
      (∀ x ∈ r.outliers, x < lf ∨ uf < x) ∧
      (∀ c : ℚ, (∀ y ∈ l, y = c) →
        iqr l = 0 ∧ lf = c ∧ uf = c ∧ r.outliers = [] ∧
          r.non_outliers.length = l.length) := by
  refine ⟨_, lowerFence l, upperFence l, run_eq l h, rfl, rfl, ?_, ?_, ?_⟩
  · intro x hx
    exact (mem_nonOutliersOf.mp hx).2
  · intro x hx
    exact (mem_outliersOf.mp hx).2
  · intro c hc
    have hsc : ∀ y ∈ sortList l, y = c := fun y hy => hc y (mem_sortList.mp hy)
    have hq1 : q1 l = c := hsc _ (mem_lowerHalf (q1_mem_lowerHalf l h))
    have hq3 : q3 l = c := hsc _ (mem_upperHalf (q3_mem_upperHalf l h))
    have hiqr : iqr l = 0 := by
      unfold iqr
      rw [hq1, hq3]
      ring
    have hlf : lowerFence l = c := by
      unfold lowerFence
      rw [hiqr, hq1]
      ring
    have huf : upperFence l = c := by
      unfold upperFence
      rw [hiqr, hq3]
      ring
    refine ⟨hiqr, hlf, huf, ?_, ?_⟩
    · show outliersOf l = []
      unfold outliersOf
      rw [List.filter_eq_nil_iff]
      intro a ha
      rw [hlf, huf, hsc a ha]
      simp [isOutlier]
    · show (nonOutliersOf l).length = l.length
      have hself : nonOutliersOf l = sortList l := by
        unfold nonOutliersOf
        rw [List.filter_eq_self]
        intro a ha
        rw [hlf, huf, hsc a ha]
        simp [isOutlier]
      rw [hself, length_sortList]

/-- C3 witness: `tukey_c3` at the concrete dataset `[4, 4]`, where the
all-identical branch also fires. -/
theorem tukey_c3_witness :
    ∃ r : TukeyResult, ∃ lf uf : ℚ,
      run (some [(4:ℚ), 4]) = Except.ok (some r) ∧
      r.lower_fence = some lf ∧ r.upper_fence = some uf ∧
      (∀ x ∈ r.non_outliers, lf ≤ x ∧ x ≤ uf) ∧
      (∀ x ∈ r.outliers, x < lf ∨ uf < x) ∧
      (∀ c : ℚ, (∀ y ∈ [(4:ℚ), 4], y = c) →
        iqr [(4:ℚ), 4] = 0 ∧ lf = c ∧ uf = c ∧ r.outliers = [] ∧
          r.non_outliers.length = ([(4:ℚ), 4]).length) :=
  tukey_c3 [4, 4] (by decide)

/-- C4: `run` yields an absent result exactly for null and empty inputs, and
a present `TukeyResult` for every non-empty input; neither case is an
exception. -/
theorem tukey_c4 :
    run none = Except.ok none ∧
    run (some []) = Except.ok none ∧
    ∀ l : List ℚ, l ≠ [] →
      ∃ r : TukeyResult, run (some l) = Except.ok (some r) := by
  refine ⟨run_none, run_nil, ?_⟩
  intro l h
  obtain ⟨r, hr, -, -⟩ := run_partition l h
  exact ⟨r, hr⟩

/-- C4 witness: the non-empty part of `tukey_c4` at the concrete
dataset `[5]`. -/
theorem tukey_c4_witness :
    ∃ r : TukeyResult, run (some [(5:ℚ)]) = Except.ok (some r) :=
  tukey_c4.2.2 [5] (by decide)

/-- C5: a single-element input yields that element as the only non-outlier,
no outliers, and both fences absent. -/
theorem tukey_c5 (x : ℚ) :
    run (some [x]) = Except.ok (some ⟨[], [x], none, none⟩) :=
  run_singleton x

/-- C6: for every non-null, non-empty input, both output sequences come back
in non-decreasing order. -/
theorem tukey_c6 (l : List ℚ) (h : l ≠ []) :
    ∃ r : TukeyResult, run (some l) = Except.ok (some r) ∧
      r.outliers.Sorted (· ≤ ·) ∧ r.non_outliers.Sorted (· ≤ ·) := by
  rcases l with _ | ⟨a, rest⟩
  · exact absurd rfl h
  rcases rest with _ | ⟨b, t⟩
  · exact ⟨⟨[], [a], none, none⟩, run_singleton a, List.sorted_nil, List.sorted_singleton a⟩
  · have h2 : 2 ≤ (a :: b :: t).length := by
      simp [List.length_cons]
    exact ⟨_, run_eq _ h2, sorted_outliersOf _, sorted_nonOutliersOf _⟩

/-- C6 witness: `tukey_c6` at the concrete dataset `[2, 1]`. -/
theorem tukey_c6_witness :
    ∃ r : TukeyResult, run (some [(2:ℚ), 1]) = Except.ok (some r) ∧
      r.outliers.Sorted (· ≤ ·) ∧ r.non_outliers.Sorted (· ≤ ·) :=
  tukey_c6 [2, 1] (by decide)

/-- C7: `run` sorts the caller's list in place: after a call on a list of at
least two elements the caller-visible sequence is an ascending permutation
of what was passed, and null, empty or single-element inputs are left
untouched. -/
theorem tukey_c7 :
    runFinalList none = none ∧
    (∀ l : List ℚ, l.length ≤ 1 → runFinalList (some l) = some l) ∧
    (∀ l : List ℚ, 2 ≤ l.length →
      runFinalList (some l) = some (sortList l) ∧
        (sortList l).Perm l ∧ (sortList l).Sorted (· ≤ ·)) := by
  refine ⟨rfl, ?_, ?_⟩
  · intro l h
    show (if 1 < l.length then some (sortList l) else some l) = some l
    rw [if_neg (by omega)]
  · intro l h
    refine ⟨?_, perm_sortList l, sorted_sortList l⟩
    show (if 1 < l.length then some (sortList l) else some l) = some (sortList l)
    rw [if_pos (by omega)]

/-- C7 witness: the sorting part of `tukey_c7` at the concrete
dataset `[2, 1]`. -/
theorem tukey_c7_witness :
    runFinalList (some [(2:ℚ), 1]) = some (sortList [(2:ℚ), 1]) ∧
      (sortList [(2:ℚ), 1]).Perm [(2:ℚ), 1] ∧
      (sortList [(2:ℚ), 1]).Sorted (· ≤ ·) :=
  tukey_c7.2.2 [2, 1] (by decide)

/-- C8: `run` never raises: every input produces an `Except.ok` outcome, and
for inputs of length ≥ 2 both half-lists handed to the median helper are
non-empty, so the helper's index `⌊len/2⌋` is in bounds. -/
theorem tukey_c8 :
    (∀ input : Option (List ℚ), ∃ o : Option TukeyResult,
      run input = Except.ok o) ∧
    (∀ l : List ℚ, 2 ≤ l.length →
      medianIdx (lowerHalf l) < (lowerHalf l).length ∧
        medianIdx (upperHalf l) < (upperHalf l).length) := by
  constructor
  · intro input
    match input with
    | none => exact ⟨none, rfl⟩
    | some [] => exact ⟨none, rfl⟩
    | some [a] => exact ⟨_, run_singleton a⟩
    | some (a :: b :: t) =>
      have h2 : 2 ≤ (a :: b :: t).length := by
        simp [List.length_cons]
      exact ⟨_, run_eq _ h2⟩
  · intro l h
    exact ⟨medianIdx_lt_length (lowerHalf_ne_nil h),
      medianIdx_lt_length (upperHalf_ne_nil h)⟩

/-- C8 witness: `tukey_c8` at the concrete dataset `[3, 1, 2]`. -/
theorem tukey_c8_witness :
    (∃ o : Option TukeyResult, run (some [(3:ℚ), 1, 2]) = Except.ok o) ∧
    (medianIdx (lowerHalf [(3:ℚ), 1, 2]) < (lowerHalf [(3:ℚ), 1, 2]).length ∧
      medianIdx (upperHalf [(3:ℚ), 1, 2]) < (upperHalf [(3:ℚ), 1, 2]).length) :=
  ⟨tukey_c8.1 (some [3, 1, 2]), tukey_c8.2 [3, 1, 2] (by decide)⟩

/-- C9 counterexample: re-running on the non-outliers is not outlier-free.
For the input `[0,0,0,0,0,6,100]` the first run removes `100` (fences `-9`
and `15`), but re-running on the surviving `[0,0,0,0,0,6]` recomputes
`IQR = 0` with both fences `0`, so `6` becomes a new outlier. -/
theorem tukey_c9_counterexample :
    ¬ ∀ l : List ℚ, 2 ≤ l.length →
        ∀ r : TukeyResult, run (some l) = Except.ok (some r) →
          ∀ r2 : TukeyResult, run (some r.non_outliers) = Except.ok (some r2) →
            r2.outliers = [] := by
  intro hall
  have h := hall [0,0,0,0,0,6,100] (by decide) _ run_c9_first _ run_c9_second
  simp at h

/-- C9 amended: feeding the non-outliers back in is a valid re-test — `run`
returns a present result that partitions the previous non-outlier sequence
against fences recomputed from it — but the re-test may classify elements as
new outliers. -/
theorem tukey_c9_amended (l : List ℚ) (h : 2 ≤ l.length) :
    run (some l) =
      Except.ok (some ⟨outliersOf l, nonOutliersOf l,
        some (lowerFence l), some (upperFence l)⟩) ∧
    ∃ r2 : TukeyResult, run (some (nonOutliersOf l)) = Except.ok (some r2) ∧
      r2.outliers.length + r2.non_outliers.length = (nonOutliersOf l).length ∧
      ∀ x : ℚ, r2.outliers.count x + r2.non_outliers.count x =
        (nonOutliersOf l).count x :=
  ⟨run_eq l h, run_partition _ (nonOutliersOf_ne_nil l h)⟩

/-- C9 witness: `tukey_c9_amended` at the concrete dataset `[1, 2]`. -/
theorem tukey_c9_witness :
    run (some [(1:ℚ), 2]) =
      Except.ok (some ⟨outliersOf [(1:ℚ), 2], nonOutliersOf [(1:ℚ), 2],
        some (lowerFence [(1:ℚ), 2]), some (upperFence [(1:ℚ), 2])⟩) ∧
    ∃ r2 : TukeyResult,
      run (some (nonOutliersOf [(1:ℚ), 2])) = Except.ok (some r2) ∧
      r2.outliers.length + r2.non_outliers.length =
        (nonOutliersOf [(1:ℚ), 2]).length ∧
      ∀ x : ℚ, r2.outliers.count x + r2.non_outliers.count x =
        (nonOutliersOf [(1:ℚ), 2]).count x :=
  tukey_c9_amended [1, 2] (by decide)

/-- C10: for every non-null, non-empty input the non-outlier output is
non-empty — the outliers are never the whole input. -/
theorem tukey_c10 (l : List ℚ) (h : l ≠ []) :
    ∃ r : TukeyResult, run (some l) = Except.ok (some r) ∧
      r.non_outliers ≠ [] ∧ r.outliers.length < l.length := by
  rcases l with _ | ⟨a, rest⟩
  · exact absurd rfl h
  rcases rest with _ | ⟨b, t⟩
  · exact ⟨⟨[], [a], none, none⟩, run_singleton a, by simp, by simp⟩
  · have h2 : 2 ≤ (a :: b :: t).length := by
      simp [List.length_cons]
    refine ⟨_, run_eq _ h2, nonOutliersOf_ne_nil _ h2, ?_⟩
    have hlen := (outliersOf_append_perm (a :: b :: t)).length_eq
    have hpos : 0 < (nonOutliersOf (a :: b :: t)).length :=
      List.length_pos.mpr (nonOutliersOf_ne_nil _ h2)
    simp only [List.length_append] at hlen
    simp only [List.length_cons] at hlen ⊢
    omega

/-- C10 witness: `tukey_c10` at the concrete dataset `[5]`. -/
theorem tukey_c10_witness :
    ∃ r : TukeyResult, run (some [(5:ℚ)]) = Except.ok (some r) ∧
      r.non_outliers ≠ [] ∧ r.outliers.length < ([(5:ℚ)]).length :=
  tukey_c10 [5] (by decide)

end Tukey
